import Mathlib

/-!
Verification of the xtrabackup-scheduler repository.

The JavaScript sources are shallowly embedded:
* JS strings are modeled as `List Char` (abbreviated `Str`); string literals
  appear as `"...".data`.
* A backup instant is modeled at UTC second granularity by its 14-digit value
  `YYYYMMDDHHmmss` (a `Nat`); the extra millisecond component of a JS `Date`
  is carried separately where it matters.  For calendar-valid instants this
  digit value is a strictly monotone encoding of the epoch, so JS `Date`
  comparisons (`<`, `<=`, subtraction in sort comparators) are modeled as
  `Nat` comparisons of digit values.  A full backup's day-granularity date
  (midnight UTC) is the 8-digit day value times `10^6`.
* Promise-returning step sequences are modeled as pure functions that return
  the list of external actions they perform, or `Except` for fallible steps.
-/

/-- JS strings as character lists. -/
abbrev Str := List Char

/-- The decimal digit character for `d % 10`. -/
def digitChar (d : Nat) : Char :=
  match d % 10 with
  | 0 => '0' | 1 => '1' | 2 => '2' | 3 => '3' | 4 => '4'
  | 5 => '5' | 6 => '6' | 7 => '7' | 8 => '8' | _ => '9'

/-- Zero-padded decimal rendering of `n` to exactly `k` digits, most
significant first — the shape `toISOString` produces for each field. -/
def natToDigits : Nat → Nat → Str
  | 0, _ => []
  | k + 1, n => natToDigits k (n / 10) ++ [digitChar (n % 10)]

/-- Reading a digit string back into a number, as the JS `Date` constructor
does with the sliced fields of a backup key. -/
def parseDigits (s : Str) : Nat :=
  s.foldl (fun acc c => acc * 10 + (c.toNat - 48)) 0

theorem natToDigits_length (k n : Nat) : (natToDigits k n).length = k := by
  induction k generalizing n with
  | zero => rfl
  | succ k ih => simp [natToDigits, ih]

theorem digitChar_toNat (d : Nat) : (digitChar d).toNat - 48 = d % 10 := by
  have h : d % 10 < 10 := Nat.mod_lt _ (by decide)
  unfold digitChar
  interval_cases h : d % 10 <;> simp [h]

theorem parseDigits_append_singleton (s : Str) (c : Char) :
    parseDigits (s ++ [c]) = parseDigits s * 10 + (c.toNat - 48) := by
  simp [parseDigits, List.foldl_append]

/-- Parsing the `k`-digit rendering of `n` recovers `n` modulo `10 ^ k`. -/
theorem parseDigits_natToDigits (k n : Nat) :
    parseDigits (natToDigits k n) = n % 10 ^ k := by
  induction k generalizing n with
  | zero => simp [natToDigits, parseDigits, Nat.mod_one]
  | succ k ih =>
    rw [natToDigits, parseDigits_append_singleton, ih, digitChar_toNat]
    have h : 10 ^ (k + 1) = 10 * 10 ^ k := by ring
    rw [h, Nat.mod_mul]
    omega

theorem natToDigits_take (k m n : Nat) :
    (natToDigits (k + m) n).take k = natToDigits k (n / 10 ^ m) := by
  induction m generalizing n with
  | zero =>
    rw [Nat.pow_zero, Nat.div_one]
    exact List.take_of_length_le (le_of_eq (natToDigits_length k n))
  | succ m ih =>
    show ((natToDigits (k + m) (n / 10)) ++ [digitChar (n % 10)]).take k = _
    rw [List.take_append_of_le_length
      (by rw [natToDigits_length]; exact Nat.le_add_right k m)]
    rw [ih, Nat.div_div_eq_div_mul]
    congr 1
    rw [Nat.pow_succ]
    ring_nf

/-- `natToDigits k` is injective below `10 ^ k`. -/
theorem natToDigits_inj {k a b : Nat} (ha : a < 10 ^ k) (hb : b < 10 ^ k)
    (h : natToDigits k a = natToDigits k b) : a = b := by
  have := congrArg parseDigits h
  rwa [parseDigits_natToDigits, parseDigits_natToDigits,
    Nat.mod_eq_of_lt ha, Nat.mod_eq_of_lt hb] at this

/-- Removing a leading pattern, as `filename.replace("inc_backup_", "")` does
on names that are known to start with the pattern (for names that do not, the
JS `replace` of a first occurrence and this function both act elsewhere;
every call below is guarded so that the pattern is a prefix). -/
def stripPre (p s : Str) : Str :=
  if p.isPrefixOf s then s.drop p.length else s

/-- Removing a trailing pattern, as `filename.replace(".tar.gz", "")` does on
catalog names, whose digit bodies cannot contain the pattern. -/
def stripSuf (suf s : Str) : Str :=
  if suf.isSuffixOf s then s.take (s.length - suf.length) else s

theorem stripPre_append (p rest : Str) : stripPre p (p ++ rest) = rest := by
  rw [stripPre, if_pos, List.drop_left]
  exact List.isPrefixOf_iff_prefix.mpr (List.prefix_append p rest)

theorem stripSuf_append (s suf : Str) : stripSuf suf (s ++ suf) = s := by
  rw [stripSuf, if_pos]
  · rw [List.length_append, Nat.add_sub_cancel, List.take_left]
  · exact List.isSuffixOf_iff_suffix.mpr (List.suffix_append s suf)

/-- `path.basename`: the part of a key after its last `/`. -/
def basename (s : Str) : Str :=
  (s.reverse.takeWhile (fun c => !(c == '/'))).reverse

/-- Joining command arguments with single spaces, as `args.join(" ")`. -/
def joinWithSpace : List Str → Str
  | [] => []
  | [a] => a
  | a :: rest => a ++ [' '] ++ joinWithSpace rest

/-- One entry of an Archive Store listing (`key`, `Size`, `LastModified`);
`lastModified` is optional because the sweep guards on its truthiness. -/
structure StoreObject where
  key : Str
  size : Nat
  lastModified : Option Int
deriving DecidableEq, Repr

/-- One catalog record as built by `listBackups` in `restore.js`. -/
structure Backup where
  key : Str
  filename : Str
  size : Nat
  date : Nat
  isIncremental : Bool
  lastModified : Option Int
deriving DecidableEq, Repr

/-- Decoding `YYYYMMDDHHmmss` digits through the six `substr` fields of
`listBackups` and the `Date` constructor, yielding the second-granularity
digit value of the instant. -/
def decodeIncDate (ds : Str) : Nat :=
  parseDigits (ds.take 4) * 10 ^ 10 +
    parseDigits ((ds.drop 4).take 2) * 10 ^ 8 +
    parseDigits ((ds.drop 6).take 2) * 10 ^ 6 +
    parseDigits ((ds.drop 8).take 2) * 10 ^ 4 +
    parseDigits ((ds.drop 10).take 2) * 10 ^ 2 +
    parseDigits ((ds.drop 12).take 2)

/-- Decoding `YYYYMMDD` digits through the three `substr` fields of
`listBackups`; the resulting midnight-UTC instant has digit value
`day * 10^6`. -/
def decodeFullDate (ds : Str) : Nat :=
  (parseDigits (ds.take 4) * 10 ^ 4 +
    parseDigits ((ds.drop 4).take 2) * 10 ^ 2 +
    parseDigits ((ds.drop 6).take 2)) * 10 ^ 6

theorem natToDigits_append (k m n : Nat) :
    natToDigits (k + m) n =
      natToDigits k (n / 10 ^ m) ++ natToDigits m (n % 10 ^ m) := by
  induction m generalizing n with
  | zero => simp [natToDigits, Nat.pow_zero, Nat.div_one, Nat.mod_one]
  | succ m ih =>
    have hpow : 10 ^ (m + 1) = 10 * 10 ^ m := by ring
    show natToDigits (k + m) (n / 10) ++ [digitChar (n % 10)] = _
    rw [ih]
    have h1 : n / 10 / 10 ^ m = n / 10 ^ (m + 1) := by
      rw [Nat.div_div_eq_div_mul, hpow]
    have h2 : n / 10 % 10 ^ m = n % 10 ^ (m + 1) / 10 := by
      rw [hpow, Nat.mod_mul_right_div_self]
    have h3 : n % 10 = n % 10 ^ (m + 1) % 10 := by
      rw [Nat.mod_mod_of_dvd n (dvd_pow_self 10 (Nat.succ_ne_zero m))]
    rw [h1, h2, h3]
    show _ = _ ++ (natToDigits m (n % 10 ^ (m + 1) / 10) ++ [_])
    rw [List.append_assoc]

theorem natToDigits_drop (k m n : Nat) :
    (natToDigits (k + m) n).drop k = natToDigits m (n % 10 ^ m) := by
  rw [natToDigits_append]
  have h := List.drop_left (natToDigits k (n / 10 ^ m)) (natToDigits m (n % 10 ^ m))
  rwa [natToDigits_length] at h

/-- Round trip: decoding the 14-digit rendering of a second-granularity
instant recovers the instant. -/
theorem decodeIncDate_natToDigits {t : Nat} (ht : t < 10 ^ 14) :
    decodeIncDate (natToDigits 14 t) = t := by
  have e14 : (14 : Nat) = 4 + 10 := rfl
  have h4 : (natToDigits 14 t).take 4 = natToDigits 4 (t / 10 ^ 10) := by
    rw [e14, natToDigits_take]
  have d4 : (natToDigits 14 t).drop 4 = natToDigits 10 (t % 10 ^ 10) := by
    rw [e14, natToDigits_drop]
  have d6 : (natToDigits 14 t).drop 6 = natToDigits 8 (t % 10 ^ 8) := by
    rw [show (14 : Nat) = 6 + 8 from rfl, natToDigits_drop]
  have d8 : (natToDigits 14 t).drop 8 = natToDigits 6 (t % 10 ^ 6) := by
    rw [show (14 : Nat) = 8 + 6 from rfl, natToDigits_drop]
  have d10 : (natToDigits 14 t).drop 10 = natToDigits 4 (t % 10 ^ 4) := by
    rw [show (14 : Nat) = 10 + 4 from rfl, natToDigits_drop]
  have d12 : (natToDigits 14 t).drop 12 = natToDigits 2 (t % 10 ^ 2) := by
    rw [show (14 : Nat) = 12 + 2 from rfl, natToDigits_drop]
  have t4 : ∀ r : Nat, (natToDigits 10 r).take 2 = natToDigits 2 (r / 10 ^ 8) :=
    fun r => by rw [show (10 : Nat) = 2 + 8 from rfl, natToDigits_take]
  have t6 : ∀ r : Nat, (natToDigits 8 r).take 2 = natToDigits 2 (r / 10 ^ 6) :=
    fun r => by rw [show (8 : Nat) = 2 + 6 from rfl, natToDigits_take]
  have t8 : ∀ r : Nat, (natToDigits 6 r).take 2 = natToDigits 2 (r / 10 ^ 4) :=
    fun r => by rw [show (6 : Nat) = 2 + 4 from rfl, natToDigits_take]
  have t10 : ∀ r : Nat, (natToDigits 4 r).take 2 = natToDigits 2 (r / 10 ^ 2) :=
    fun r => by rw [show (4 : Nat) = 2 + 2 from rfl, natToDigits_take]
  have t12 : (natToDigits 2 (t % 10 ^ 2)).take 2 =
      natToDigits 2 (t % 10 ^ 2 / 10 ^ 0) := by
    rw [show (2 : Nat) = 2 + 0 from rfl, natToDigits_take]
  rw [decodeIncDate, h4, d4, d6, d8, d10, d12, t4, t6, t8, t10, t12]
  rw [parseDigits_natToDigits, parseDigits_natToDigits, parseDigits_natToDigits,
    parseDigits_natToDigits, parseDigits_natToDigits, parseDigits_natToDigits]
  norm_num at ht ⊢
  omega

/-- `formatDateTime`: the 14-digit UTC rendering of an instant, as produced
by `toISOString().slice(0, 19)` with separators removed; the millisecond
component `ms` is discarded by the slice. -/
def formatDateTime (t : Nat) (ms : Nat) : Str :=
  let _ := ms
  natToDigits 14 t

/-- `formatDate`: the 8-digit UTC day rendering from
`toISOString().slice(0, 10)` with dashes removed. -/
def formatDate (day : Nat) : Str :=
  natToDigits 8 day

/-- The archive name an incremental backup is stored under
(`inc_backup_YYYYMMDDHHmmss.tar.gz`). -/
def incKeyName (t : Nat) (ms : Nat) : Str :=
  "inc_backup_".data ++ formatDateTime t ms ++ ".tar.gz".data

/-- The archive name a full backup is stored under
(`full_backup_YYYYMMDD.tar.gz`). -/
def fullKeyName (day : Nat) : Str :=
  "full_backup_".data ++ formatDate day ++ ".tar.gz".data

/-- The timestamp `listBackups` derives for an incremental archive name:
strip the `inc_backup_` and `.tar.gz` affixes, split the digit fields and
rebuild the instant. -/
def decodeIncName (fname : Str) : Nat :=
  decodeIncDate (stripSuf ".tar.gz".data (stripPre "inc_backup_".data fname))

/-- The timestamp `listBackups` derives for a full archive name (midnight of
the encoded day). -/
def decodeFullName (fname : Str) : Nat :=
  decodeFullDate (stripSuf ".tar.gz".data (stripPre "full_backup_".data fname))

/-- The record `listBackups` builds for one listed store object. -/
def toRecord (o : StoreObject) : Backup :=
  let fname := basename o.key
  let inc := "inc_backup_".data.isPrefixOf fname
  { key := o.key
    filename := fname
    size := o.size
    date := if inc then decodeIncName fname else decodeFullName fname
    isIncremental := inc
    lastModified := o.lastModified }

/-- Stable insertion used to model `Array.prototype.sort` (stable in the
engines the tool targets) with the ascending comparator
`(a, b) => a.date - b.date`. -/
def insortAsc (x : Backup) : List Backup → List Backup
  | [] => [x]
  | y :: ys => if x.date ≤ y.date then x :: y :: ys else y :: insortAsc x ys

/-- Stable ascending sort by derived timestamp. -/
def sortAsc : List Backup → List Backup
  | [] => []
  | x :: xs => insortAsc x (sortAsc xs)

/-- Stable insertion for the descending comparator
`(a, b) => b.date - a.date`. -/
def insortDesc (x : Backup) : List Backup → List Backup
  | [] => [x]
  | y :: ys => if y.date ≤ x.date then x :: y :: ys else y :: insortDesc x ys

/-- Stable descending sort by derived timestamp. -/
def sortDesc : List Backup → List Backup
  | [] => []
  | x :: xs => insortDesc x (sortDesc xs)

/-- The catalog `listBackups` derives from a store listing before the
presentation cap: keep the keys bearing the archive extension, decode each
into a record, sort descending by derived timestamp. -/
def listBackupsUncapped (objs : List StoreObject) : List Backup :=
  sortDesc ((objs.filter
    (fun o => ".tar.gz".data.isSuffixOf o.key)).map toRecord)

/-- `listBackups` as written in `restore.js`: the sorted catalog truncated
with `.slice(0, 20)` before it is returned. -/
def listBackups (objs : List StoreObject) : List Backup :=
  (listBackupsUncapped objs).take 20

theorem mem_insortAsc {a x : Backup} {l : List Backup} :
    a ∈ insortAsc x l ↔ a = x ∨ a ∈ l := by
  induction l with
  | nil => simp [insortAsc]
  | cons y ys ih =>
    by_cases h : x.date ≤ y.date
    · simp [insortAsc, h]
    · simp [insortAsc, h, ih]
      tauto

theorem mem_sortAsc {a : Backup} {l : List Backup} :
    a ∈ sortAsc l ↔ a ∈ l := by
  induction l with
  | nil => simp [sortAsc]
  | cons x xs ih => simp [sortAsc, mem_insortAsc, ih]

theorem pairwise_insortAsc {x : Backup} {l : List Backup}
    (h : l.Pairwise (fun a b => a.date ≤ b.date)) :
    (insortAsc x l).Pairwise (fun a b => a.date ≤ b.date) := by
  induction l with
  | nil => simp [insortAsc]
  | cons y ys ih =>
    rcases List.pairwise_cons.mp h with ⟨hy, hys⟩
    by_cases hle : x.date ≤ y.date
    · rw [insortAsc, if_pos hle]
      refine List.pairwise_cons.mpr ⟨?_, h⟩
      intro b hb
      rcases List.mem_cons.mp hb with hb | hb
      · subst hb; exact hle
      · exact le_trans hle (hy b hb)
    · rw [insortAsc, if_neg hle]
      refine List.pairwise_cons.mpr ⟨?_, ih hys⟩
      intro b hb
      rcases mem_insortAsc.mp hb with hb | hb
      · subst hb; omega
      · exact hy b hb

theorem pairwise_sortAsc (l : List Backup) :
    (sortAsc l).Pairwise (fun a b => a.date ≤ b.date) := by
  induction l with
  | nil => simp [sortAsc]
  | cons x xs ih => exact pairwise_insortAsc ih

/-- In a non-decreasing list whose strict maximum is `t`, the last element
is `t`. -/
theorem getLast_eq_of_strict_max {l : List Backup} {t : Backup}
    (hs : l.Pairwise (fun a b => a.date ≤ b.date)) (hmem : t ∈ l)
    (hmax : ∀ b ∈ l, b ≠ t → b.date < t.date) : l.getLast? = some t := by
  induction l with
  | nil => cases hmem
  | cons x xs ih =>
    cases xs with
    | nil =>
      have hx := List.mem_singleton.mp hmem
      subst hx
      rfl
    | cons y ys =>
      rcases List.pairwise_cons.mp hs with ⟨hx, hs'⟩
      have htail : t ∈ y :: ys := by
        rcases List.mem_cons.mp hmem with hmem | hmem
        · subst hmem
          by_contra hnot
          have hy : y ≠ t := fun he => hnot (he ▸ List.mem_cons_self y ys)
          have := hmax y (List.mem_cons_of_mem _ (List.mem_cons_self y ys)) hy
          have := hx y (List.mem_cons_self y ys)
          omega
        · exact hmem
      have hmax' : ∀ b ∈ y :: ys, b ≠ t → b.date < t.date := fun b hb =>
        hmax b (List.mem_cons_of_mem _ hb)
      rw [List.getLast?_cons_cons]
      exact ih hs' htail hmax'

/-- `findRelatedBackups` from `restore.js`: resolve the chain needed to
restore `sel` from the catalog list it is given.  A missing same-day full
raises the `Cannot find full backup for date ...` error, modeled as
`Except.error` carrying the day digits the message embeds. -/
def findRelatedBackups (backups : List Backup) (sel : Backup) :
    Except Str (List Backup) :=
  if sel.isIncremental then
    match backups.find? (fun b =>
        !b.isIncremental && b.filename == fullKeyName (sel.date / 10 ^ 6)) with
    | none => .error (formatDate (sel.date / 10 ^ 6))
    | some full =>
      .ok (full :: sortAsc (backups.filter (fun b =>
        b.isIncremental && decide (full.date ≤ b.date) &&
          decide (b.date ≤ sel.date) &&
          ("inc_backup_".data ++
            formatDate (sel.date / 10 ^ 6)).isPrefixOf b.filename)))
  else
    .ok [sel]

/-- One externally visible step of the restore pipeline.  `merge lo idx` is
an `xtrabackup --prepare` run on the base directory, with `--apply-log-only`
when `lo` is true and with `--incremental-dir` naming the working directory
`inc_<idx>` when `idx` is present. -/
inductive RestoreAction where
  | download (key : Str)
  | extractArchive (archive : Str) (destIncIdx : Option Nat)
  | merge (logOnly : Bool) (incIdx : Option Nat)
  | removeIncDir (idx : Nat)
deriving DecidableEq, Repr

/-- The per-incremental loop of `restoreBackups` (`for let i = 1; ...`):
download, extract into `inc_i`, log-only merge into the base, delete the
working directory. -/
def incApplySteps : Nat → List Backup → List RestoreAction
  | _, [] => []
  | i, b :: rest =>
    .download b.key :: .extractArchive b.filename (some i) ::
      .merge true (some i) :: .removeIncDir i :: incApplySteps (i + 1) rest

/-- The full action sequence of `restoreBackups` on a resolved chain. -/
def restoreTrace : List Backup → List RestoreAction
  | [] => []
  | full :: incs =>
    [.download full.key, .extractArchive full.filename none] ++
      (if incs.isEmpty then [] else [.merge true none]) ++
      incApplySteps 1 incs ++ [.merge false none]

/-- Just the Backup Engine merge invocations of a trace, in order. -/
def mergeCalls (trace : List RestoreAction) : List (Bool × Option Nat) :=
  trace.filterMap (fun a =>
    match a with
    | .merge lo idx => some (lo, idx)
    | _ => none)

/-- Modelled from the spec (claim C1): for a chain with `k ≥ 1` incrementals,
one log-only merge on the base alone, one log-only merge per non-final
incremental, and a finalizing merge whose incremental argument is the last
incremental. -/
def specMergeCalls (k : Nat) : List (Bool × Option Nat) :=
  (true, none) ::
    ((List.range (k - 1)).map (fun j => (true, some (j + 1)))) ++
    [(false, some k)]

/-- The restore flow after a backup is selected: resolution followed by the
pipeline; a resolution error aborts before any download, extract or merge. -/
def restoreActions (backups : List Backup) (sel : Backup) :
    List RestoreAction :=
  match findRelatedBackups backups sel with
  | .error _ => []
  | .ok chain => restoreTrace chain

theorem mergeCalls_incApplySteps (i : Nat) (incs : List Backup) :
    mergeCalls (incApplySteps i incs)
      = (List.range incs.length).map (fun j => (true, some (i + j))) := by
  induction incs generalizing i with
  | nil => rfl
  | cons b rest ih =>
    have h2 : mergeCalls (incApplySteps i (b :: rest))
        = (true, some i) :: mergeCalls (incApplySteps (i + 1) rest) := rfl
    rw [h2, ih (i + 1), List.length_cons, List.range_succ_eq_map,
      List.map_cons, List.map_map]
    congr 1
    simp
    intro a _
    omega

theorem mergeCalls_append (t₁ t₂ : List RestoreAction) :
    mergeCalls (t₁ ++ t₂) = mergeCalls t₁ ++ mergeCalls t₂ := by
  simp [mergeCalls, List.filterMap_append]

/-- One entry under the local working root.  `hasCheckpoint` states that the
entry is a directory containing the engine's `xtrabackup_checkpoints`
completion marker (it is false for plain files, whose inner paths are not
accessible). -/
structure LocalEntry where
  name : Str
  isDir : Bool
  hasCheckpoint : Bool
deriving DecidableEq, Repr

/-- `full_backup_<YYYYMMDD>`: the local directory name for a day's full
backup. -/
def fullDirName (today : Str) : Str :=
  "full_backup_".data ++ today

/-- `getCurrentFullBackupDir` from `src/index.js`: today's full-backup
directory is returned only when both `fs.access` probes succeed — the
directory exists and its `xtrabackup_checkpoints` marker exists. -/
def getCurrentFullBackupDir (entries : List LocalEntry) (today : Str) :
    Option Str :=
  if entries.any (fun e => e.name == fullDirName today && e.hasCheckpoint) then
    some (fullDirName today)
  else
    none

/-- `getCurrentFullBackupDir` from the legacy variant
(`src/unnamed/part_000`): only the directory's existence is probed; the
completion marker is not consulted. -/
def getCurrentFullBackupDirLegacy (entries : List LocalEntry) (today : Str) :
    Option Str :=
  if entries.any (fun e => e.name == fullDirName today) then
    some (fullDirName today)
  else
    none

/-- The backup kind a scheduler tick decides on; an incremental run carries
the base directory it works against. -/
inductive TickDecision where
  | full
  | incremental (base : Str)
deriving DecidableEq, Repr

/-- The branch at the top of `runBackup` in `src/index.js`. -/
def runBackupDecision (entries : List LocalEntry) (today : Str) :
    TickDecision :=
  match getCurrentFullBackupDir entries today with
  | none => .full
  | some base => .incremental base

/-- The branch at the top of `runBackup` in the legacy variant. -/
def runBackupDecisionLegacy (entries : List LocalEntry) (today : Str) :
    TickDecision :=
  match getCurrentFullBackupDirLegacy entries today with
  | none => .full
  | some base => .incremental base

/-- The redaction pass inside `runCommand` of `src/index.js` and
`src/restore.js` (the two files carry identical copies): any argument
starting with `--password=` is replaced before the failure message is
assembled. -/
def safeArgs (args : List Str) : List Str :=
  args.map (fun arg =>
    if "--password=".data.isPrefixOf arg then "--password=***".data else arg)

/-- The failure message `runCommand` rejects with in `src/index.js` and
`src/restore.js`. -/
def commandErrorMessage (command : Str) (args : List Str) (code : Nat) : Str :=
  command ++ " ".data ++ joinWithSpace (safeArgs args) ++
    " failed with exit code ".data ++ Nat.toDigits 10 code

/-- The failure message `runCommand` rejects with in the legacy variant
(`src/unnamed/part_000`), which joins the arguments verbatim. -/
def legacyCommandErrorMessage (command : Str) (args : List Str) (code : Nat) :
    Str :=
  command ++ " ".data ++ joinWithSpace args ++
    " failed with exit code ".data ++ Nat.toDigits 10 code

/-- The `xtrabackup --backup` argument vector built by `performFullBackup`. -/
def fullBackupArgs (user pw host port dir : Str) : List Str :=
  ["--backup".data,
    "--user=".data ++ user,
    "--password=".data ++ pw,
    "--host=".data ++ host,
    "--port=".data ++ port,
    "--target-dir=".data ++ dir,
    "--no-lock".data]

/-- The retention cutoff: `Date.now() - retentionDays * 24 * 60 * 60 * 1000`
(milliseconds). -/
def retentionCutoff (nowMs : Int) (retentionDays : Nat) : Int :=
  nowMs - retentionDays * 24 * 60 * 60 * 1000

/-- The objects `cleanupOldBackups` deletes from one store listing: every
listed object with a truthy `LastModified` strictly before the cutoff,
whatever its key. -/
def cleanupDeletes (objs : List StoreObject) (nowMs : Int)
    (retentionDays : Nat) : List StoreObject :=
  objs.filter (fun o =>
    match o.lastModified with
    | some t => decide (t < retentionCutoff nowMs retentionDays)
    | none => false)

/-- Modelled from the spec (claim C7): the sweep was specified to delete
exactly the Catalog entries — keys bearing the archive extension — older
than the cutoff, and nothing else. -/
def specSweepDeletes (objs : List StoreObject) (nowMs : Int)
    (retentionDays : Nat) : List StoreObject :=
  objs.filter (fun o =>
    ".tar.gz".data.isSuffixOf o.key &&
      match o.lastModified with
      | some t => decide (t < retentionCutoff nowMs retentionDays)
      | none => false)

/-- Outcome of one Archive Store interaction. -/
inductive StoreRes (α : Type) where
  | ok (value : α)
  | ioError
deriving DecidableEq, Repr

/-- `cleanupOldBackups` never propagates a store failure: its body is wrapped
in `try/catch` and the catch only logs.  `none` means the sweep aborted after
a store error; `some ds` means it deleted exactly `ds`. -/
def cleanupRun (listRes : StoreRes (List StoreObject)) (nowMs : Int)
    (retentionDays : Nat) : Option (List StoreObject) :=
  match listRes with
  | .ioError => none
  | .ok objs => some (cleanupDeletes objs nowMs retentionDays)

/-- What one scheduler tick did: whether `process.exit(1)` ran, whether the
liveness ping was attempted, and what the sweep deleted (none when the sweep
aborted or was never reached). -/
structure TickOutcome where
  exited : Bool
  pingAttempted : Bool
  sweepDeleted : Option (List StoreObject)
deriving DecidableEq, Repr

/-- `runBackup`'s control flow in `src/index.js`: the backup procedure
(including its upload) runs inside the outer `try`, whose catch exits the
process; `cleanupOldBackups` and `pingHealthcheck` swallow their own
failures, so a tick only dies when the backup/upload phase throws. -/
def runTick (backupRes : StoreRes Unit)
    (listRes : StoreRes (List StoreObject)) (nowMs : Int)
    (retentionDays : Nat) : TickOutcome :=
  match backupRes with
  | .ioError => { exited := true, pingAttempted := false, sweepDeleted := none }
  | .ok _ =>
    { exited := false
      pingAttempted := true
      sweepDeleted := cleanupRun listRes nowMs retentionDays }

/-- The entries `cleanupOldDirectories` removes: every name under the
working root that starts with `full_backup_` and is not today's directory
name, with no check of what kind of entry it is. -/
def cleanupOldDirRemoves (entries : List LocalEntry) (today : Str) :
    List LocalEntry :=
  entries.filter (fun e =>
    "full_backup_".data.isPrefixOf e.name && !(e.name == fullDirName today))

/-- Modelled from the spec reading of claim C10: only directories with an
old `full_backup_` name were claimed to be removed. -/
def specCleanupOldDirRemoves (entries : List LocalEntry) (today : Str) :
    List LocalEntry :=
  entries.filter (fun e =>
    e.isDir && "full_backup_".data.isPrefixOf e.name &&
      !(e.name == fullDirName today))

/-- A full-backup record on 2024-01-01, as `listBackups` would derive it. -/
def fullRec1 : Backup :=
  { key := "full_backup_20240101.tar.gz".data
    filename := "full_backup_20240101.tar.gz".data
    size := 2097152
    date := 20240101000000
    isIncremental := false
    lastModified := none }

/-- An incremental record at 2024-01-01 06:00:00 UTC. -/
def incRec1a : Backup :=
  { key := "inc_backup_20240101060000.tar.gz".data
    filename := "inc_backup_20240101060000.tar.gz".data
    size := 204800
    date := 20240101060000
    isIncremental := true
    lastModified := none }

/-- An incremental record at 2024-01-01 12:00:00 UTC. -/
def incRec1b : Backup :=
  { key := "inc_backup_20240101120000.tar.gz".data
    filename := "inc_backup_20240101120000.tar.gz".data
    size := 153600
    date := 20240101120000
    isIncremental := true
    lastModified := none }

/-- Claim C1 as stated is false on the code: restoring a chain with one
incremental performs a log-only merge of that (final) incremental followed
by a finalizing merge with no incremental argument, not a finalizing merge
whose incremental argument is the last incremental. -/
theorem C1_counterexample :
    mergeCalls (restoreTrace [fullRec1, incRec1a])
        = [(true, none), (true, some 1), (false, none)] ∧
    specMergeCalls 1 = [(true, none), (false, some 1)] ∧
    mergeCalls (restoreTrace [fullRec1, incRec1a]) ≠ specMergeCalls 1 := by
  refine ⟨rfl, rfl, ?_⟩
  decide

/-- Claim C1, amended to the code: for a resolved chain with `k ≥ 1`
incrementals the pipeline performs exactly one log-only merge on the base
alone, one log-only merge per incremental — the final one included — and one
finalizing merge on the base with no incremental argument, in that order,
and no other merge invocations. -/
theorem C1_merge_protocol (full : Backup) (incs : List Backup)
    (h : incs ≠ []) :
    mergeCalls (restoreTrace (full :: incs)) =
      (true, none) ::
        (((List.range incs.length).map (fun j => (true, some (j + 1)))) ++
          [(false, none)]) := by
  cases incs with
  | nil => exact absurd rfl h
  | cons b rest =>
    have h0 : restoreTrace (full :: b :: rest) =
        [.download full.key, .extractArchive full.filename none] ++
          [.merge true none] ++ incApplySteps 1 (b :: rest) ++
          [.merge false none] := rfl
    rw [h0, mergeCalls_append, mergeCalls_append, mergeCalls_append,
      mergeCalls_incApplySteps]
    have h1 : mergeCalls [RestoreAction.download full.key,
        RestoreAction.extractArchive full.filename none] = [] := rfl
    have h2 : mergeCalls [RestoreAction.merge true none] = [(true, none)] := rfl
    have h3 : mergeCalls [RestoreAction.merge false none] = [(false, none)] :=
      rfl
    rw [h1, h2, h3]
    simp only [List.nil_append, List.cons_append, List.append_assoc]
    congr 2
    apply List.map_congr_left
    intro j _
    congr 2
    omega

/-- Witness for C1_merge_protocol on the concrete two-incremental chain. -/
theorem C1_merge_protocol_witness :
    mergeCalls (restoreTrace (fullRec1 :: [incRec1a, incRec1b])) =
      (true, none) ::
        (((List.range ([incRec1a, incRec1b] : List Backup).length).map
            (fun j => (true, some (j + 1)))) ++ [(false, none)]) :=
  C1_merge_protocol fullRec1 [incRec1a, incRec1b] (by decide)

/-- Bound transfer from a second-granularity instant to its calendar day. -/
theorem day_lt_of_instant_lt {t : Nat} (ht : t < 10 ^ 14) :
    t / 10 ^ 6 < 10 ^ 8 := by
  rw [Nat.div_lt_iff_lt_mul (by norm_num : (0 : Nat) < 10 ^ 6)]
  calc t < 10 ^ 14 := ht
  _ = 10 ^ 8 * 10 ^ 6 := by norm_num

/-- Two day values below `10 ^ 8` with the same full-archive name are
equal. -/
theorem fullKeyName_inj {d d' : Nat} (hd : d < 10 ^ 8) (hd' : d' < 10 ^ 8)
    (h : fullKeyName d = fullKeyName d') : d = d' := by
  unfold fullKeyName formatDate at h
  have h1 : "full_backup_".data ++ natToDigits 8 d =
      "full_backup_".data ++ natToDigits 8 d' := List.append_cancel_right h
  exact natToDigits_inj hd hd' (List.append_cancel_left h1)

/-- The day-prefix filter of `findRelatedBackups` on a well-formed
incremental name selects exactly the records of that calendar day. -/
theorem inc_prefix_iff {t day : Nat} (ht : t < 10 ^ 14) (hday : day < 10 ^ 8) :
    (("inc_backup_".data ++ natToDigits 8 day).isPrefixOf
        (incKeyName t 0) = true) ↔ day = t / 10 ^ 6 := by
  rw [List.isPrefixOf_iff_prefix]
  have hassoc : incKeyName t 0 =
      "inc_backup_".data ++ (natToDigits 14 t ++ ".tar.gz".data) := by
    unfold incKeyName formatDateTime
    rw [List.append_assoc]
  rw [hassoc, List.prefix_append_right_inj, List.prefix_iff_eq_take,
    natToDigits_length,
    List.take_append_of_le_length (by rw [natToDigits_length]; norm_num),
    show (14 : Nat) = 8 + 6 from rfl, natToDigits_take]
  constructor
  · intro h
    exact natToDigits_inj hday (day_lt_of_instant_lt ht) h
  · intro h
    rw [h]

/-- Well-formedness of a catalog record: its filename is the canonical
encoding of its derived timestamp — exactly what `listBackups` guarantees
for records built from canonically named archives. -/
def WfCatalogRecord (b : Backup) : Prop :=
  (b.isIncremental = true →
    b.date < 10 ^ 14 ∧ b.filename = incKeyName b.date 0) ∧
  (b.isIncremental = false →
    b.date % 10 ^ 6 = 0 ∧ b.date / 10 ^ 6 < 10 ^ 8 ∧
      b.filename = fullKeyName (b.date / 10 ^ 6))

instance (b : Backup) : Decidable (WfCatalogRecord b) := by
  unfold WfCatalogRecord
  infer_instance

/-- Claim C2, amended: on a well-formed catalog the resolved chain for an
incremental target starts with a same-day Full from the catalog, its tail
holds exactly the same-day incrementals with timestamps in
`[full.timestamp, target.timestamp]`, sorted non-decreasingly; the target is
in the tail, and it is the last element whenever no other catalog incremental
shares its exact timestamp (with a shared timestamp a tied record may follow
it, which is what the counterexample exhibits). -/
theorem C2_chain_shape (backups : List Backup) (sel : Backup)
    (hwf : ∀ b ∈ backups, WfCatalogRecord b)
    (hselmem : sel ∈ backups)
    (hsel : sel.isIncremental = true)
    (full : Backup) (incs : List Backup)
    (hres : findRelatedBackups backups sel = Except.ok (full :: incs)) :
    (full ∈ backups ∧ full.isIncremental = false ∧
      full.date = sel.date / 10 ^ 6 * 10 ^ 6) ∧
    (∀ b, b ∈ incs ↔ b ∈ backups ∧ b.isIncremental = true ∧
      b.date / 10 ^ 6 = sel.date / 10 ^ 6 ∧ full.date ≤ b.date ∧
      b.date ≤ sel.date) ∧
    incs.Pairwise (fun a b => a.date ≤ b.date) ∧
    sel ∈ incs ∧
    ((∀ b ∈ backups, b.isIncremental = true → b.date = sel.date → b = sel) →
      incs.getLast? = some sel) := by
  obtain ⟨htlt, hselfn⟩ := (hwf sel hselmem).1 hsel
  have hdaylt : sel.date / 10 ^ 6 < 10 ^ 8 := day_lt_of_instant_lt htlt
  unfold findRelatedBackups at hres
  rw [if_pos hsel] at hres
  cases hfind : backups.find? (fun b =>
      !b.isIncremental && b.filename == fullKeyName (sel.date / 10 ^ 6)) with
  | none =>
    rw [hfind] at hres
    simp at hres
  | some f =>
    rw [hfind] at hres
    injection hres with hres
    injection hres with hf hincs
    rw [hf] at hfind hincs
    have hfmem := List.mem_of_find?_eq_some hfind
    have hfprop := List.find?_some hfind
    rw [Bool.and_eq_true, Bool.not_eq_true', beq_iff_eq] at hfprop
    obtain ⟨hfinc, hffn⟩ := hfprop
    obtain ⟨hfmod, hfdaylt, hffn'⟩ := (hwf full hfmem).2 hfinc
    have hfday : full.date / 10 ^ 6 = sel.date / 10 ^ 6 :=
      fullKeyName_inj hfdaylt hdaylt (hffn'.symm.trans hffn)
    have hfdate : full.date = sel.date / 10 ^ 6 * 10 ^ 6 := by
      have := Nat.div_add_mod full.date (10 ^ 6)
      rw [hfday] at this
      omega
    have hpred : ∀ b ∈ backups,
        ((b.isIncremental && decide (full.date ≤ b.date) &&
          decide (b.date ≤ sel.date) &&
          ("inc_backup_".data ++
            formatDate (sel.date / 10 ^ 6)).isPrefixOf b.filename) = true) ↔
        (b.isIncremental = true ∧ b.date / 10 ^ 6 = sel.date / 10 ^ 6 ∧
          full.date ≤ b.date ∧ b.date ≤ sel.date) := by
      intro b hb
      rw [Bool.and_eq_true, Bool.and_eq_true, Bool.and_eq_true,
        decide_eq_true_iff, decide_eq_true_iff]
      constructor
      · rintro ⟨⟨⟨hbinc, hge⟩, hle⟩, hpre⟩
        obtain ⟨hblt, hbfn⟩ := (hwf b hb).1 hbinc
        rw [hbfn] at hpre
        have hday := (inc_prefix_iff hblt hdaylt).mp hpre
        exact ⟨hbinc, hday.symm, hge, hle⟩
      · rintro ⟨hbinc, hday, hge, hle⟩
        obtain ⟨hblt, hbfn⟩ := (hwf b hb).1 hbinc
        refine ⟨⟨⟨hbinc, hge⟩, hle⟩, ?_⟩
        rw [hbfn]
        exact (inc_prefix_iff hblt hdaylt).mpr hday.symm
    have hmemiff : ∀ b, b ∈ incs ↔ b ∈ backups ∧ b.isIncremental = true ∧
        b.date / 10 ^ 6 = sel.date / 10 ^ 6 ∧ full.date ≤ b.date ∧
        b.date ≤ sel.date := by
      intro b
      rw [← hincs, mem_sortAsc, List.mem_filter]
      constructor
      · rintro ⟨hb, hp⟩
        exact ⟨hb, (hpred b hb).mp hp⟩
      · rintro ⟨hb, hp⟩
        exact ⟨hb, (hpred b hb).mpr hp⟩
    have hselin : sel ∈ incs := by
      rw [hmemiff]
      refine ⟨hselmem, hsel, rfl, ?_, le_refl _⟩
      rw [hfdate]
      exact Nat.div_mul_le_self sel.date (10 ^ 6)
    have hpw : incs.Pairwise (fun a b => a.date ≤ b.date) := by
      rw [← hincs]
      exact pairwise_sortAsc _
    refine ⟨⟨hfmem, hfinc, hfdate⟩, hmemiff, hpw, hselin, ?_⟩
    intro huniq
    refine getLast_eq_of_strict_max hpw hselin ?_
    intro b hb hbne
    obtain ⟨hbmem, hbinc, _, _, hble⟩ := (hmemiff b).mp hb
    rcases Nat.lt_or_ge b.date sel.date with hlt | hge
    · exact hlt
    · exact absurd (huniq b hbmem hbinc (le_antisymm hble hge)) hbne

/-- Witness for C2_chain_shape: the spec's own three-record scenario. -/
theorem C2_chain_shape_witness :
    ([incRec1a, incRec1b] : List Backup).getLast? = some incRec1b :=
  (C2_chain_shape [fullRec1, incRec1a, incRec1b] incRec1b (by decide)
    (by decide) (by decide) fullRec1 [incRec1a, incRec1b] rfl).2.2.2.2
    (by decide)

/-- An incremental record whose timestamp ties `incRec2tieB`; the two live
under different store keys with the same archive basename. -/
def incRec2tieA : Backup :=
  { key := "a/inc_backup_20240101060000.tar.gz".data
    filename := "inc_backup_20240101060000.tar.gz".data
    size := 204800
    date := 20240101060000
    isIncremental := true
    lastModified := none }

/-- The tied twin of `incRec2tieA`, later in catalog order. -/
def incRec2tieB : Backup :=
  { key := "b/inc_backup_20240101060000.tar.gz".data
    filename := "inc_backup_20240101060000.tar.gz".data
    size := 102400
    date := 20240101060000
    isIncremental := true
    lastModified := none }

/-- Claim C2 as stated is false on the code: selecting `incRec2tieA` when a
distinct record with the same timestamp follows it in the catalog yields a
chain whose last element is the tied record, not the target. -/
theorem C2_counterexample :
    findRelatedBackups [fullRec1, incRec2tieA, incRec2tieB] incRec2tieA
        = Except.ok [fullRec1, incRec2tieA, incRec2tieB] ∧
    [fullRec1, incRec2tieA, incRec2tieB].getLast? = some incRec2tieB ∧
    incRec2tieB ≠ incRec2tieA := by
  refine ⟨rfl, rfl, by decide⟩

/-- Claim C3, confirmed: on a well-formed catalog with no Full record for
the target's calendar day, resolution fails with the error identifying that
day (the thrown message embeds exactly these day digits) and the restore
flow performs no download, extract or merge action.  Resolution itself is a
pure function of the already-fetched catalog, so it performs no store or
filesystem I/O. -/
theorem C3_missing_base (backups : List Backup) (sel : Backup)
    (hwf : ∀ b ∈ backups, WfCatalogRecord b)
    (hselmem : sel ∈ backups)
    (hsel : sel.isIncremental = true)
    (hnoday : ∀ b ∈ backups, b.isIncremental = false →
      b.date / 10 ^ 6 ≠ sel.date / 10 ^ 6) :
    findRelatedBackups backups sel
        = Except.error (formatDate (sel.date / 10 ^ 6)) ∧
    restoreActions backups sel = [] := by
  obtain ⟨htlt, _⟩ := (hwf sel hselmem).1 hsel
  have hdaylt : sel.date / 10 ^ 6 < 10 ^ 8 := day_lt_of_instant_lt htlt
  have hnone : backups.find? (fun b =>
      !b.isIncremental && b.filename == fullKeyName (sel.date / 10 ^ 6))
        = none := by
    rw [List.find?_eq_none]
    intro b hb
    rw [Bool.and_eq_true, Bool.not_eq_true', beq_iff_eq]
    rintro ⟨hbinc, hbfn⟩
    obtain ⟨_, hbdaylt, hbfn'⟩ := (hwf b hb).2 hbinc
    exact hnoday b hb hbinc
      (fullKeyName_inj hbdaylt hdaylt (hbfn'.symm.trans hbfn))
  have herr : findRelatedBackups backups sel
      = Except.error (formatDate (sel.date / 10 ^ 6)) := by
    unfold findRelatedBackups
    rw [if_pos hsel, hnone]
  refine ⟨herr, ?_⟩
  unfold restoreActions
  rw [herr]

/-- An incremental record on a day with no full backup in the store (the
spec's second resolver scenario). -/
def incLonely : Backup :=
  { key := "inc_backup_20240102030000.tar.gz".data
    filename := "inc_backup_20240102030000.tar.gz".data
    size := 102400
    date := 20240102030000
    isIncremental := true
    lastModified := none }

/-- Witness for C3_missing_base on the spec's lonely-incremental scenario. -/
theorem C3_missing_base_witness :
    findRelatedBackups [incLonely] incLonely
        = Except.error "20240102".data ∧
    restoreActions [incLonely] incLonely = [] :=
  C3_missing_base [incLonely] incLonely (by decide) (by decide) (by decide)
    (by decide)

/-- Claim C4, amended: the primary scheduler (`src/index.js`) runs the Full
Backup Procedure exactly when no local entry named `full_backup_<today>`
containing the `xtrabackup_checkpoints` marker exists, and otherwise runs
the Incremental Backup Procedure against exactly that directory; the legacy
variant (`src/unnamed/part_000`) probes only the directory's existence and
ignores the completion marker — the counterexample shows it diverging. -/
theorem C4_probe (entries : List LocalEntry) (today : Str) :
    (runBackupDecision entries today = .full ↔
      ¬ ∃ e ∈ entries, e.name = fullDirName today ∧ e.hasCheckpoint = true) ∧
    (runBackupDecision entries today = .full ∨
      runBackupDecision entries today = .incremental (fullDirName today)) := by
  unfold runBackupDecision getCurrentFullBackupDir
  by_cases h : entries.any
      (fun e => e.name == fullDirName today && e.hasCheckpoint) = true
  · rw [if_pos h]
    constructor
    · constructor
      · intro hfull
        exact absurd hfull (by simp)
      · intro hno
        rw [List.any_eq_true] at h
        obtain ⟨e, he, hp⟩ := h
        rw [Bool.and_eq_true, beq_iff_eq] at hp
        exact absurd ⟨e, he, hp.1, hp.2⟩ hno
    · right
      rfl
  · rw [if_neg h]
    constructor
    · constructor
      · intro _ hex
        obtain ⟨e, he, hn, hc⟩ := hex
        refine h (List.any_eq_true.mpr ⟨e, he, ?_⟩)
        rw [Bool.and_eq_true, beq_iff_eq]
        exact ⟨hn, hc⟩
      · intro _
        rfl
    · left
      rfl

/-- Today's full-backup directory after a run that was started but never
produced the engine's completion marker. -/
def dirNoMarker : LocalEntry :=
  { name := fullDirName "20240101".data
    isDir := true
    hasCheckpoint := false }

/-- Claim C4 as stated is false for the legacy scheduler variant: with
today's directory present but no `xtrabackup_checkpoints` marker, it still
decides to run an incremental backup, although no valid (marker-bearing)
base exists. -/
theorem C4_counterexample :
    runBackupDecisionLegacy [dirNoMarker] "20240101".data
        = .incremental (fullDirName "20240101".data) ∧
    ¬ ∃ e ∈ [dirNoMarker], e.name = fullDirName "20240101".data ∧
        e.hasCheckpoint = true := by
  refine ⟨rfl, ?_⟩
  decide

/-- Claim C5, confirmed: encoding any second-granularity instant (with any
millisecond remainder, which `formatDateTime` truncates away) as an
incremental archive name and decoding the name through `listBackups`
recovers the instant; the name alone determines the record's timestamp. -/
theorem C5_roundtrip (t ms : Nat) (ht : t < 10 ^ 14) :
    decodeIncName (incKeyName t ms) = t := by
  unfold decodeIncName incKeyName formatDateTime
  rw [List.append_assoc, stripPre_append]
  rw [show natToDigits 14 t ++ ".tar.gz".data
      = natToDigits 14 t ++ ".tar.gz".data from rfl, stripSuf_append]
  exact decodeIncDate_natToDigits ht

/-- Witness for C5_roundtrip at a concrete instant. -/
theorem C5_roundtrip_witness :
    decodeIncName (incKeyName 20240101060000 123) = 20240101060000 :=
  C5_roundtrip 20240101060000 123 (by norm_num)

/-- The stored full archive of 2024-01-01 in the C6 scenario. -/
def fullObjC6 : StoreObject :=
  { key := "full_backup_20240101.tar.gz".data
    size := 2097152
    lastModified := none }

/-- The stored incremental archive taken at hour `h` of 2024-01-01. -/
def incObjC6 (h : Nat) : StoreObject :=
  { key := "inc_backup_".data ++ natToDigits 14 (20240101000000 + h * 10000) ++
      ".tar.gz".data
    size := 1024
    lastModified := none }

/-- A store listing holding one full backup and its 21 same-day hourly
incrementals — the state an hourly schedule reaches late in the day. -/
def storeC6 : List StoreObject :=
  fullObjC6 :: (List.range 21).map (fun j => incObjC6 (j + 1))

/-- The newest incremental of the day, as the restore tool lists it. -/
def targetC6 : Backup := toRecord (incObjC6 21)

/-- Claim C6 is right and the code is wrong: `listBackups` applies the
20-entry cap before returning, and `main` resolves chains against that
capped list.  On this listing the user-selectable newest incremental
resolves to `MissingBaseBackup` even though the full backup and the 01:00
incremental exist in the store, where the uncapped catalog resolves to the
complete 22-artifact chain. -/
theorem C6_cap_breaks_resolution :
    targetC6 ∈ listBackups storeC6 ∧
    findRelatedBackups (listBackups storeC6) targetC6
        = Except.error "20240101".data ∧
    findRelatedBackups (listBackupsUncapped storeC6) targetC6
        = Except.ok (toRecord fullObjC6 ::
            (List.range 21).map (fun j => toRecord (incObjC6 (j + 1)))) := by
  refine ⟨by decide, rfl, rfl⟩

/-- Claim C7, amended: the sweep deletes exactly the listed objects whose
reported `lastModified` is strictly before `now - retentionWindow`, with no
restriction to archive-extension keys; everything at or after the cutoff, or
without a `lastModified`, is kept. -/
theorem C7_sweep_set (objs : List StoreObject) (nowMs : Int)
    (rd : Nat) (o : StoreObject) :
    o ∈ cleanupDeletes objs nowMs rd ↔
      o ∈ objs ∧ ∃ t, o.lastModified = some t ∧
        t < retentionCutoff nowMs rd := by
  rw [cleanupDeletes, List.mem_filter]
  cases ho : o.lastModified with
  | none => simp [ho]
  | some t => simp [ho]

/-- A non-archive object sitting under the backup prefix. -/
def strayObjC7 : StoreObject :=
  { key := "notes.txt".data
    size := 5
    lastModified := some 0 }

/-- Claim C7 as stated is false on the code: an old object without the
archive extension is outside the Catalog, yet the sweep deletes it. -/
theorem C7_counterexample :
    strayObjC7 ∈ cleanupDeletes [strayObjC7] 2678400000 30 ∧
    strayObjC7 ∉ specSweepDeletes [strayObjC7] 2678400000 30 := by
  decide

/-- Claim C8, amended: in the primary backup script and the restore tool the
redaction pass guarantees that no argument of the form `--password=<pw>`
survives into the surfaced failure message (for any real password, i.e. any
`pw` other than the mask text itself); the legacy backup variant performs no
masking — the counterexample shows its message carrying the password
verbatim. -/
theorem C8_password_masked (args : List Str) (pw : Str)
    (hpw : pw ≠ "***".data) :
    "--password=".data ++ pw ∉ safeArgs args := by
  intro hmem
  rcases List.mem_map.mp hmem with ⟨a, _, hmask⟩
  by_cases hp : "--password=".data.isPrefixOf a
  · rw [if_pos hp] at hmask
    have key : "--password=".data ++ "***".data
        = "--password=".data ++ pw := hmask
    exact hpw (List.append_cancel_left key).symm
  · rw [if_neg hp] at hmask
    apply hp
    rw [hmask]
    exact List.isPrefixOf_iff_prefix.mpr (List.prefix_append _ _)

/-- Witness for C8_password_masked on the full-backup argument vector. -/
theorem C8_password_masked_witness :
    "--password=".data ++ "secret".data ∉
      safeArgs (fullBackupArgs "root".data "secret".data "db".data
        "3306".data "/tmp/backup".data) :=
  C8_password_masked
    (fullBackupArgs "root".data "secret".data "db".data "3306".data
      "/tmp/backup".data)
    "secret".data (by decide)

/-- The `xtrabackup --backup` argument vector built by the legacy variant's
`performFullBackup` (it passes no `--port`). -/
def legacyFullBackupArgs (user pw host dir : Str) : List Str :=
  ["--backup".data,
    "--user=".data ++ user,
    "--password=".data ++ pw,
    "--host=".data ++ host,
    "--target-dir=".data ++ dir,
    "--no-lock".data]

/-- Claim C8 as stated is false on the code: the legacy backup variant's
failure message contains the password-bearing argument verbatim. -/
theorem C8_counterexample :
    "--password=secret".data <:+:
      legacyCommandErrorMessage "xtrabackup".data
        (legacyFullBackupArgs "root".data "secret".data "db".data
          "/tmp/b".data) 1 := by
  decide

/-- Claim C9, amended: a store failure in the backup/upload phase is fatal —
the tick exits without reaching the sweep or the liveness ping — but a store
failure during the Retention Sweep is caught and logged inside
`cleanupOldBackups`: the sweep aborts, the tick continues to the liveness
ping, and the process does not exit.  (Neither path retries in-process.) -/
theorem C9_tick_failure_policy (listRes : StoreRes (List StoreObject))
    (nowMs : Int) (rd : Nat) :
    (runTick .ioError listRes nowMs rd).exited = true ∧
    (runTick .ioError listRes nowMs rd).pingAttempted = false ∧
    (runTick (.ok ()) .ioError nowMs rd).exited = false ∧
    (runTick (.ok ()) .ioError nowMs rd).pingAttempted = true ∧
    (runTick (.ok ()) .ioError nowMs rd).sweepDeleted = none :=
  ⟨rfl, rfl, rfl, rfl, rfl⟩

/-- Claim C9 as stated is false on the code: after a store I/O failure in
the Retention Sweep the tick does not exit and still attempts the liveness
ping. -/
theorem C9_counterexample :
    runTick (.ok ()) .ioError 0 30
      = { exited := false, pingAttempted := true, sweepDeleted := none } :=
  rfl

/-- Claim C10, amended: `cleanupOldDirectories` removes exactly the entries
— directories or files alike — whose name starts with `full_backup_` and
differs from today's directory name; everything else (today's directory,
`inc_backup_*` entries, unrelated names) is untouched. -/
theorem C10_cleanup_set (entries : List LocalEntry) (today : Str)
    (e : LocalEntry) :
    e ∈ cleanupOldDirRemoves entries today ↔
      e ∈ entries ∧ "full_backup_".data.isPrefixOf e.name = true ∧
        e.name ≠ fullDirName today := by
  simp [cleanupOldDirRemoves, List.mem_filter, Bool.and_eq_true,
    Bool.not_eq_true', beq_eq_false_iff_ne, and_assoc]

/-- A stale archive file left beside the backup directories by a run that
died between `tar` and upload. -/
def staleTarC10 : LocalEntry :=
  { name := "full_backup_20231231.tar.gz".data
    isDir := false
    hasCheckpoint := false }

/-- Claim C10 as stated is false on the code: the cleanup removes a stale
non-directory entry whose name starts with `full_backup_`, although the
claim says every entry other than old full-backup directories is left
unchanged. -/
theorem C10_counterexample :
    staleTarC10 ∈ cleanupOldDirRemoves [staleTarC10] "20240101".data ∧
    staleTarC10 ∉ specCleanupOldDirRemoves [staleTarC10] "20240101".data ∧
    staleTarC10.isDir = false := by
  decide
